import Mathlib

/-!
Verification of the etlcmd HCL configuration decoder (config.go).

The decoder walks a generically parsed HCL object tree into a typed
pipeline model.  We embed the AST fragment the decoder consumes
(object lists of items carrying a key path, an assign line and a value)
and translate each Go function of config.go into a Lean function of the
same name.  Go panics (unchecked type assertions, out-of-range indexing)
are modelled as a distinguished error constructor that no wrapper
touches, mirroring the fact that a panic propagates past every
error-returning caller.
-/

namespace EtlCmd

/-- Literal values occurring in an HCL document. -/
inductive HLit where
  | str (s : String)
  | boolean (b : Bool)
  | num (n : Int)

/-- An HCL AST node as seen by the decoder: a literal, a list, or an
object whose items each carry a key path, the source line of their
assign token, and a value.  Mirrors hashicorp/hcl ast.Node restricted
to what config.go inspects; key tokens are modelled as strings, since
for the trees produced by the HCL parser the key-token value is always
a string (so the not-a-string guards in config.go never fire). -/
inductive HNode where
  | lit (v : HLit)
  | arr (elems : List HNode)
  | obj (items : List (List String × Nat × HNode))

/-- One object item: key path, assign line, value (ast.ObjectItem). -/
abbrev HItem := List String × Nat × HNode

def HItem.keys (it : HItem) : List String := it.1

def HItem.assignLine (it : HItem) : Nat := it.2.1

def HItem.val (it : HItem) : HNode := it.2.2

/-- ASCII lowercase of one character (Go strings.ToLower restricted to
the ASCII keys and tags this decoder handles). -/
def charLower (c : Char) : Char :=
  if c.isUpper then Char.ofNat (c.toNat + 32) else c

/-- ASCII lowercase of a string. -/
def strLower (s : String) : String := String.mk (s.data.map charLower)

/-- Go strings.EqualFold, for the ASCII keys the decoder compares. -/
def eqFold (a b : String) : Bool := strLower a == strLower b

/-- ast.ObjectList.Filter with a single key: keep the items whose first
key case-folds to the given name, stripping that first key; items with
too few keys are skipped. -/
def filterKey (name : String) : List HItem → List HItem
  | [] => []
  | ([], _, _) :: rest => filterKey name rest
  | ((k :: ks), line, v) :: rest =>
    if eqFold k name then (ks, line, v) :: filterKey name rest
    else filterKey name rest

/-- ast.ObjectList.Children: keep the items that still have keys. -/
def children : List HItem → List HItem
  | [] => []
  | it :: rest => if it.1.isEmpty then children rest else it :: children rest

/-- Errors produced by the decoder, one constructor per fmt.Errorf site
of config.go, plus goPanic for Go runtime panics and multi/prefixed/
parsing for go-multierror aggregation and fmt.Errorf wrapping. -/
inductive PErr where
  | goPanic (msg : String)
  | invalidKey (key : String) (line : Nat)
  | cannotCheckKeys
  | multi (errs : List PErr)
  | prefixed (pre : String) (e : PErr)
  | inProcess (name : String) (e : PErr)
  | inField (name : String) (e : PErr)
  | inUnidata (e : PErr)
  | parsing (what : String) (e : PErr)
  | duplicateProcess (name : String)
  | duplicateField (name : String)
  | processNotObject (name : String)
  | decodeObjectFail
  | missingInput (name : String)
  | missingOutput (name : String)
  | onlyOneUnidata
  | onlyOneOutput
  | typeOnly (what : String)
  | mustSpecifyType (name : String)
  | errParsingField (name : String) (e : PErr)
  | weakDecodeFail (structField : String)

/-- multierror.Prefix: distributes the prefixing function over a
multierror; a Go panic is never prefixed because control never
returns to the caller. -/
def distribPre (f : PErr → PErr) : PErr → PErr
  | .goPanic m => .goPanic m
  | .multi es => .multi (es.map f)
  | e => f e

/-- fmt.Errorf wrapping of a returned error; a Go panic is never
wrapped because control never returns to the caller. -/
def wrapCtx (f : PErr → PErr) : PErr → PErr
  | .goPanic m => .goPanic m
  | e => f e

/-- Apply a wrapper to the error of an Except result. -/
def mapErr (f : PErr → PErr) : Except PErr α → Except PErr α
  | .error e => .error (f e)
  | .ok a => .ok a

/-- Loop body of checkHCLKeys: one invalid-key error per item whose
first key is not in the valid set.  Keys[0] on an item without keys
is a Go index-out-of-range panic. -/
def checkKeysLoop (valid : List String) : List HItem → Except PErr (List PErr)
  | [] => .ok []
  | ([], _, _) :: _ => .error (.goPanic "index out of range")
  | ((k :: _), line, _) :: rest =>
    match checkKeysLoop valid rest with
    | .error e => .error e
    | .ok es =>
      .ok (if valid.contains k then es else PErr.invalidKey k line :: es)

/-- checkHCLKeys applied to a raw ObjectList (the root call site).
Returns none for a nil error. -/
def checkHCLKeysList (items : List HItem) (valid : List String) : Option PErr :=
  match checkKeysLoop valid items with
  | .error e => some e
  | .ok [] => none
  | .ok es => some (.multi es)

/-- checkHCLKeys applied to an ast.Node: accepts an object, anything
else is the cannot-check-HCL-keys default case. -/
def checkHCLKeys (node : HNode) (valid : List String) : Option PErr :=
  match node with
  | .obj items => checkHCLKeysList items valid
  | _ => some .cannotCheckKeys

/-- hcl.DecodeObject of an object body into a map, modelled as an
association list in item order keeping the raw value nodes: one entry
per item keyed by its first key; an item with further keys nests as a
fresh object.  (Go merges duplicate keys in the map; the theorems
below only apply this to objects with pairwise distinct keys, where
the association list and the map agree.) -/
def decodeEntries : List HItem → Except PErr (List (String × HNode))
  | [] => .ok []
  | ([], _, _) :: _ => .error (.goPanic "index out of range")
  | ((k :: ks), line, v) :: rest =>
    match decodeEntries rest with
    | .error e => .error e
    | .ok m => .ok ((k, if ks.isEmpty then v else .obj [(ks, line, v)]) :: m)

/-- The opaque Config mapping carried by input/output/transform blocks. -/
abbrev configMap := List (String × HNode)

/-- hcl.DecodeObject into map of interface: only an object decodes. -/
def decodeObject (node : HNode) : Except PErr configMap :=
  match node with
  | .obj items => decodeEntries items
  | _ => .error .decodeObjectFail

/-- Go map indexing m[k] (exact key match). -/
def cfgFind (m : configMap) (k : String) : Option HNode :=
  (m.find? fun p => p.1 == k).map fun p => p.2

/-- mapstructure key lookup for a struct field: exact map key first,
then a case-insensitive (EqualFold) search. -/
def lookupFold (m : configMap) (fieldName : String) : Option HNode :=
  match m.find? fun p => p.1 == fieldName with
  | some p => some p.2
  | none => (m.find? fun p => eqFold p.1 fieldName).map fun p => p.2

/-- mapstructure WeakDecode of a dynamic value into a string field:
strings pass through, bools become 1 or 0, ints their decimal form;
anything else is a coercion error naming the struct field. -/
def weakToString (fieldName : String) (v : HNode) : Except PErr String :=
  match v with
  | .lit (.str s) => .ok s
  | .lit (.boolean b) => .ok (if b then "1" else "0")
  | .lit (.num n) => .ok (toString n)
  | _ => .error (.weakDecodeFail fieldName)

/-- inputInfo of config.go: type tag and opaque config mapping. -/
structure inputInfo where
  type : String
  config : configMap

/-- outputInfo of config.go. -/
structure outputInfo where
  type : String
  config : configMap

/-- transformInfo of config.go. -/
structure transformInfo where
  type : String
  config : configMap

/-- processInfo of config.go; the nilable Go pointers Input and Output
are Options, a nil Transforms slice is the empty list. -/
structure processInfo where
  name : String
  input : Option inputInfo
  transforms : List transformInfo
  output : Option outputInfo

/-- unidataInfo of config.go. -/
structure unidataInfo where
  host : String
  username : String
  password : String
  udtBin : String
  udtHome : String
  udtAcct : String

/-- The root Config object of config.go. -/
structure Config where
  processes : List processInfo
  unidata : Option unidataInfo

/-- parseInputs: take the labeled children of the filtered input group,
decode only the first one; an empty child list leaves Input nil with no
error.  The guard for an item without keys is unreachable after
Children but kept from the source. -/
def parseInputs (items : List HItem) : Except PErr (Option inputInfo) :=
  match children items with
  | [] => .ok none
  | item :: _ =>
    match item.1 with
    | [] => .error (.typeOnly "inputs")
    | key :: _ =>
      match decodeObject item.2.2 with
      | .error e => .error e
      | .ok m => .ok (some { type := strLower key, config := m })

/-- parseTransforms: one transformInfo per item of the filtered
transform group, in order; an item without a remaining key (an
unlabeled transform block) is an error. -/
def parseTransforms : List HItem → Except PErr (List transformInfo)
  | [] => .ok []
  | item :: rest =>
    match item.1 with
    | [] => .error (.typeOnly "transforms")
    | key :: _ =>
      match decodeObject item.2.2 with
      | .error e => .error e
      | .ok m =>
        match parseTransforms rest with
        | .error e => .error e
        | .ok tl => .ok ({ type := strLower key, config := m } :: tl)

/-- parseOutputs: the filtered output group must have exactly one
labeled child. -/
def parseOutputs (items : List HItem) : Except PErr outputInfo :=
  match children items with
  | [item] =>
    match item.1 with
    | [] => .error (.typeOnly "outputs")
    | key :: _ =>
      match decodeObject item.2.2 with
      | .error e => .error e
      | .ok m => .ok { type := strLower key, config := m }
  | _ => .error .onlyOneOutput

/-- The body of one iteration of the parseProcesses loop: duplicate
name check, key validation, object-shape check, DecodeObject, then the
required input group, the optional transform group and the required
output group, exactly in source order. -/
def parseOneProcess (seen : List String) (it : HItem) :
    Except PErr (String × processInfo) :=
  match it.1 with
  | [] => .error (.goPanic "index out of range")
  | n :: _ =>
    if seen.contains n then .error (.duplicateProcess n)
    else
      match checkHCLKeys it.2.2 ["input", "output", "transform"] with
      | some e => .error (distribPre (PErr.inProcess n) e)
      | none =>
        match it.2.2 with
        | .obj listVal =>
          match decodeObject (.obj listVal) with
          | .error e => .error e
          | .ok _ =>
            match
              ((match filterKey "input" listVal with
               | [] => .error (PErr.missingInput n)
               | o => mapErr (wrapCtx (PErr.parsing "input")) (parseInputs o)) :
                Except PErr (Option inputInfo)) with
            | .error e => .error e
            | .ok inp =>
              match
                ((match filterKey "transform" listVal with
                 | [] => .ok []
                 | o => mapErr (wrapCtx (PErr.parsing "transform")) (parseTransforms o)) :
                  Except PErr (List transformInfo)) with
              | .error e => .error e
              | .ok trs =>
                match
                  ((match filterKey "output" listVal with
                   | [] => .error (PErr.missingOutput n)
                   | o => mapErr (wrapCtx (PErr.parsing "output")) (parseOutputs o)) :
                    Except PErr outputInfo) with
                | .error e => .error e
                | .ok outp =>
                  .ok (n, { name := n, input := inp, transforms := trs,
                            output := some outp })
        | _ => .error (.processNotObject n)

/-- The parseProcesses loop: processes the items in order, extending
the seen set, returning at the first failing item. -/
def parseProcessesLoop (seen : List String) :
    List HItem → Except PErr (List processInfo)
  | [] => .ok []
  | it :: rest =>
    match parseOneProcess seen it with
    | .error e => .error e
    | .ok (n, p) =>
      match parseProcessesLoop (n :: seen) rest with
      | .error e => .error e
      | .ok ps => .ok (p :: ps)

/-- parseProcesses: iterate over the labeled children of the filtered
process group. -/
def parseProcesses (items : List HItem) : Except PErr (List processInfo) :=
  match children items with
  | [] => .ok []
  | cs => parseProcessesLoop [] cs

/-- mapstructure WeakDecode of one string field of unidataInfo: absent
keys keep the zero value. -/
def weakField (m : configMap) (fieldName : String) : Except PErr String :=
  match lookupFold m fieldName with
  | none => .ok ""
  | some v => weakToString fieldName v

/-- mapstructure.WeakDecode of the decoded map into unidataInfo.
(mapstructure aggregates errors across fields; modelled as the first
field error since no claim distinguishes the two.) -/
def weakDecodeUnidata (m : configMap) : Except PErr unidataInfo :=
  match weakField m "Host" with
  | .error e => .error e
  | .ok host =>
    match weakField m "Username" with
    | .error e => .error e
    | .ok username =>
      match weakField m "Password" with
      | .error e => .error e
      | .ok password =>
        match weakField m "UdtBin" with
        | .error e => .error e
        | .ok udtBin =>
          match weakField m "UdtHome" with
          | .error e => .error e
          | .ok udtHome =>
            match weakField m "UdtAcct" with
            | .error e => .error e
            | .ok udtAcct =>
              .ok { host := host, username := username, password := password,
                    udtBin := udtBin, udtHome := udtHome, udtAcct := udtAcct }

/-- parseUnidata: at most one unidata block; key validation, decode,
weak decode.  Items[0] on an empty list is a Go panic, unreachable
because Parse only calls this on a nonempty filter result. -/
def parseUnidata (items : List HItem) : Except PErr unidataInfo :=
  if items.length > 1 then .error .onlyOneUnidata
  else
    match items with
    | [] => .error (.goPanic "index out of range")
    | item :: _ =>
      match checkHCLKeys item.2.2
          ["host", "username", "password", "udtbin", "udthome", "udtacct"] with
      | some e => .error (distribPre PErr.inUnidata e)
      | none =>
        match decodeObject item.2.2 with
        | .error e => .error e
        | .ok m => weakDecodeUnidata m

/-- Parse, from the point where the external HCL parser has produced
the root object list: root key validation, then the process group,
then the unidata group; the first failing group aborts. -/
def Parse (root : List HItem) : Except PErr Config :=
  match checkHCLKeysList root ["process", "unidata"] with
  | some e => .error e
  | none =>
    match
      ((match filterKey "process" root with
       | [] => .ok []
       | o => mapErr (wrapCtx (PErr.parsing "process")) (parseProcesses o)) :
        Except PErr (List processInfo)) with
    | .error e => .error e
    | .ok procs =>
      match
        ((match filterKey "unidata" root with
         | [] => .ok none
         | o =>
           match parseUnidata o with
           | .error e => .error (wrapCtx (PErr.parsing "unidata") e)
           | .ok u => .ok (some u)) :
          Except PErr (Option unidataInfo)) with
      | .error e => .error e
      | .ok uni => .ok { processes := procs, unidata := uni }

/-- The Go return convention of Parse: a model pointer and an error,
where every error return site of config.go returns a nil model. -/
def ParseGo (root : List HItem) : Option Config × Option PErr :=
  match Parse root with
  | .ok c => (some c, none)
  | .error e => (none, some e)

namespace V1

/-- FieldInfo of the earlier config.go revision that still parsed
field blocks inside an input. -/
structure FieldInfo where
  name : String
  type : String
  isMulti : Bool

/-- strconv.ParseBool: the exact strings Go accepts. -/
def goParseBool (s : String) : Option Bool :=
  if s ∈ (["1", "t", "T", "TRUE", "true", "True"] : List String) then some true
  else if s ∈ (["0", "f", "F", "FALSE", "false", "False"] : List String) then
    some false
  else none

/-- mapstructure WeakDecode of a dynamic value into a bool field:
bools pass through, strings go through strconv.ParseBool with the
empty string decoding to false, ints are nonzero tests; anything else
is a coercion error naming the struct field. -/
def weakToBool (fieldName : String) (v : HNode) : Except PErr Bool :=
  match v with
  | .lit (.boolean b) => .ok b
  | .lit (.str s) =>
    match goParseBool s with
    | some b => .ok b
    | none => if s == "" then .ok false else .error (.weakDecodeFail fieldName)
  | .lit (.num n) => .ok (decide (n ≠ 0))
  | _ => .error (.weakDecodeFail fieldName)

/-- mapstructure.WeakDecode of the decoded map into FieldInfo.  Field
names are matched against map keys exactly, then case-insensitively;
note that the map key is-underscore-multi does not fold-match the Go
field IsMulti, so that key is skipped by the weak decoder (its value
only matters to the explicit assertions that follow in parseFields).
The decoded values themselves are discarded by parseFields, which
overwrites every field afterwards; only the error matters. -/
def weakDecodeFieldInfo (m : configMap) : Except PErr Unit :=
  match (match lookupFold m "Name" with
         | none => .ok ""
         | some v => weakToString "Name" v : Except PErr String) with
  | .error e => .error e
  | .ok _ =>
    match (match lookupFold m "Type" with
           | none => .ok ""
           | some v => weakToString "Type" v : Except PErr String) with
    | .error e => .error e
    | .ok _ =>
      match (match lookupFold m "IsMulti" with
             | none => .ok false
             | some v => weakToBool "IsMulti" v : Except PErr Bool) with
      | .error e => .error e
      | .ok _ => .ok ()

/-- The parseFields loop of the earlier revision: duplicate-name
check, key validation, DecodeObject, WeakDecode, then the explicit
required-type lookup with an unchecked string assertion and the
explicit is-underscore-multi lookup with an unchecked bool assertion
(both Go panics when the dynamic value has another type). -/
def parseFieldsLoop (seen : List String) :
    List HItem → Except PErr (List FieldInfo)
  | [] => .ok []
  | it :: rest =>
    match it.1 with
    | [] => .error (.goPanic "index out of range")
    | n :: _ =>
      if seen.contains n then .error (.duplicateField n)
      else
        match checkHCLKeys it.2.2 ["type", "is_multi"] with
        | some e => .error (distribPre (PErr.inField n) e)
        | none =>
          match decodeObject it.2.2 with
          | .error e => .error e
          | .ok m =>
            match weakDecodeFieldInfo m with
            | .error e => .error (wrapCtx (PErr.errParsingField n) e)
            | .ok _ =>
              match cfgFind m "type" with
              | none => .error (.mustSpecifyType n)
              | some tv =>
                match tv with
                | .lit (.str ts) =>
                  match
                    ((match cfgFind m "is_multi" with
                     | none => .ok false
                     | some iv =>
                       match iv with
                       | .lit (.boolean b) => .ok b
                       | _ => .error (.goPanic
                           "interface conversion: interface is not bool")) :
                      Except PErr Bool) with
                  | .error e => .error e
                  | .ok im =>
                    match parseFieldsLoop (n :: seen) rest with
                    | .error e => .error e
                    | .ok fs =>
                      .ok ({ name := n, type := ts, isMulti := im } :: fs)
                | _ => .error (.goPanic
                    "interface conversion: interface is not string")

/-- parseFields of the earlier revision, over the filtered field
group. -/
def parseFields (items : List HItem) : Except PErr (List FieldInfo) :=
  parseFieldsLoop [] items

end V1

/-! ### Builders for well-shaped configuration trees

These produce the HCL trees that the theorems below quantify over:
a process block with one labeled input block, a list of labeled
transform blocks and one labeled output block, each block body being a
plain list of literal attributes. -/

/-- One literal attribute item: key, assign line, literal value. -/
def mkAttrItems (attrs : List (String × Nat × HLit)) : List HItem :=
  attrs.map fun a => ([a.1], a.2.1, HNode.lit a.2.2)

/-- The config mapping DecodeObject produces for such a body. -/
def attrsConfig (attrs : List (String × Nat × HLit)) : configMap :=
  attrs.map fun a => (a.1, HNode.lit a.2.2)

/-- A labeled block item under the given keyword. -/
def mkBlock (keyword label : String) (line : Nat)
    (attrs : List (String × Nat × HLit)) : HItem :=
  ([keyword, label], line, .obj (mkAttrItems attrs))

/-- A description of one well-shaped process block. -/
structure procDesc where
  name : String
  line : Nat
  inLabel : String
  inAttrs : List (String × Nat × HLit)
  transforms : List (String × Nat × List (String × Nat × HLit))
  outLabel : String
  outAttrs : List (String × Nat × HLit)

/-- The body of the process block a procDesc describes. -/
def procBlocks (d : procDesc) : List HItem :=
  mkBlock "input" d.inLabel d.line d.inAttrs ::
    (d.transforms.map (fun t => mkBlock "transform" t.1 t.2.1 t.2.2) ++
     [mkBlock "output" d.outLabel d.line d.outAttrs])

/-- The process block item a procDesc describes. -/
def mkProcessItem (d : procDesc) : HItem :=
  (["process", d.name], d.line, .obj (procBlocks d))

/-- The same block as it reaches the parseProcesses loop, after the
root-level Filter has stripped the process keyword. -/
def strippedProcess (d : procDesc) : HItem :=
  ([d.name], d.line, .obj (procBlocks d))

/-- The processInfo the decoder is expected to produce for it. -/
def descProcess (d : procDesc) : processInfo :=
  { name := d.name
    input := some { type := strLower d.inLabel, config := attrsConfig d.inAttrs }
    transforms := d.transforms.map fun t =>
      { type := strLower t.1, config := attrsConfig t.2.2 }
    output := some { type := strLower d.outLabel, config := attrsConfig d.outAttrs } }

/-- A process block with an input group but no output group. -/
def mkProcessNoOut (n : String) (line : Nat) (inLabel : String)
    (inAttrs : List (String × Nat × HLit)) : HItem :=
  (["process", n], line, .obj [mkBlock "input" inLabel line inAttrs])

/-- A process block with an output group but no input group. -/
def mkProcessNoIn (n : String) (line : Nat) (outLabel : String)
    (outAttrs : List (String × Nat × HLit)) : HItem :=
  (["process", n], line, .obj [mkBlock "output" outLabel line outAttrs])

/-! ### Inputs used by the claim theorems below -/

/-- Spec-side characterization of the key validator (claim C6),
following the spec wording: the offending keys of a block are exactly
the keys present whose first key is not in the permitted set, each
paired with its source line, in block order. -/
def offendingKeys (valid : List String) : List HItem → List (String × Nat)
  | [] => []
  | it :: rest =>
    match it.1 with
    | [] => offendingKeys valid rest
    | k :: _ =>
      if valid.contains k then offendingKeys valid rest
      else (k, it.2.1) :: offendingKeys valid rest

/-- Process block carrying one unknown key besides its input and
output groups. -/
def c1item (n k : String) (l : Nat) : HItem :=
  (["process", n], 1, .obj [mkBlock "input" "csv" 1 [], ([k], l, .lit (.str "x")),
    mkBlock "output" "json" 1 []])

/-- Item whose value is not an object, so its single-process parse
fails. -/
def c1wItem : HItem := (["w"], 1, .lit (.str "y"))

/-- First process of the C3 counterexample. -/
def c3e1 : procDesc := ⟨"dupx", 1, "csv", [], [], "json", []⟩

/-- Second process of the C3 counterexample, same name. -/
def c3e2 : procDesc := ⟨"dupx", 2, "json", [], [], "csv", []⟩

/-- First process of the C3 witness. -/
def c3d1 : procDesc := ⟨"dup", 1, "csv", [], [], "json", []⟩

/-- Second process of the C3 witness, same name. -/
def c3d2 : procDesc := ⟨"dup", 2, "json", [], [], "csv", []⟩

/-- Root list with one unknown root key. -/
def c4root : List HItem := [(["bad"], 1, .lit (.str "x"))]

/-- First process of the C5 witness. -/
def c5d1 : procDesc := ⟨"load", 1, "csv", [("path", 2, .str "in.csv")],
  [("js", 3, [("script", 4, .str "s")])], "json", [("path", 5, .str "out.json")]⟩

/-- Second process of the C5 witness. -/
def c5d2 : procDesc := ⟨"extract", 6, "json", [], [], "csv", []⟩

/-- Root block whose items carry one permitted and two unknown keys. -/
def c6items : List HItem :=
  [(["good"], 1, .lit (.str "a")), (["bad1"], 2, .lit (.str "b")),
   (["bad2"], 3, .lit (.str "c"))]

/-- Field block whose is-underscore-multi attribute holds the
non-boolean string yes. -/
def c7failing : HItem :=
  (["TITLE"], 5, .obj [(["type"], 6, .lit (.str "string")),
    (["is_multi"], 7, .lit (.str "yes"))])

/-- Field block without an is-underscore-multi attribute. -/
def c7absent : HItem :=
  (["TITLE"], 5, .obj [(["type"], 6, .lit (.str "string"))])

/-- Two unidata items as they reach parseUnidata. -/
def c9items : List HItem := [([], 1, .obj []), ([], 2, .obj [])]

/-- Output group with two labeled children. -/
def c10items : List HItem := [(["csv"], 1, .obj []), (["json"], 2, .obj [])]

/-! ### Evaluation lemmas for the builders -/

theorem decodeEntries_mkAttrItems (attrs : List (String × Nat × HLit)) :
    decodeEntries (mkAttrItems attrs) = .ok (attrsConfig attrs) := by
  induction attrs with
  | nil => rfl
  | cons a rest ih =>
    simp only [mkAttrItems, attrsConfig, List.map_cons] at ih ⊢
    simp [decodeEntries, ih]

theorem decodeEntries_ok_of_keys (items : List HItem) :
    (∀ it ∈ items, it.1 ≠ []) → ∃ m, decodeEntries items = .ok m := by
  induction items with
  | nil => exact fun _ => ⟨[], rfl⟩
  | cons it rest ih =>
    intro h
    obtain ⟨m, hm⟩ := ih fun x hx => h x (List.mem_cons_of_mem _ hx)
    obtain ⟨ks, line, v⟩ := it
    cases ks with
    | nil => exact absurd rfl (h ([], line, v) (List.mem_cons_self _ _))
    | cons k ks2 =>
      exact ⟨(k, if ks2.isEmpty then v else HNode.obj [(ks2, line, v)]) :: m,
        by simp [decodeEntries, hm]⟩

theorem filterKey_map_two_keys_eq (kw name : String)
    (h : eqFold kw name = true)
    (ts : List (String × Nat × List (String × Nat × HLit))) :
    filterKey name (ts.map fun t => ([kw, t.1], t.2.1, .obj (mkAttrItems t.2.2)))
      = ts.map fun t => ([t.1], t.2.1, .obj (mkAttrItems t.2.2)) := by
  induction ts with
  | nil => rfl
  | cons t rest ih => simp [filterKey, h, ih]

theorem filterKey_map_two_keys_ne (kw name : String)
    (h : eqFold kw name = false)
    (ts : List (String × Nat × List (String × Nat × HLit))) :
    filterKey name (ts.map fun t => ([kw, t.1], t.2.1, .obj (mkAttrItems t.2.2)))
      = [] := by
  induction ts with
  | nil => rfl
  | cons t rest ih => simp [filterKey, h, ih]

theorem filterKey_append (name : String) (xs ys : List HItem) :
    filterKey name (xs ++ ys) = filterKey name xs ++ filterKey name ys := by
  induction xs with
  | nil => rfl
  | cons it rest ih =>
    obtain ⟨ks, line, v⟩ := it
    cases ks with
    | nil => simp [filterKey, ih]
    | cons k ks2 =>
      cases hk : eqFold k name with
      | true => simp [filterKey, hk, ih]
      | false => simp [filterKey, hk, ih]

theorem filterKey_procBlocks_input (d : procDesc) :
    filterKey "input" (procBlocks d) =
      [([d.inLabel], d.line, .obj (mkAttrItems d.inAttrs))] := by
  have h1 : eqFold "input" "input" = true := by rfl
  have h2 : eqFold "transform" "input" = false := by rfl
  have h3 : eqFold "output" "input" = false := by rfl
  simp [procBlocks, mkBlock, filterKey, filterKey_append, h1, h3,
    filterKey_map_two_keys_ne "transform" "input" h2 d.transforms]

theorem filterKey_procBlocks_transform (d : procDesc) :
    filterKey "transform" (procBlocks d) =
      d.transforms.map fun t => ([t.1], t.2.1, .obj (mkAttrItems t.2.2)) := by
  have h1 : eqFold "input" "transform" = false := by rfl
  have h2 : eqFold "transform" "transform" = true := by rfl
  have h3 : eqFold "output" "transform" = false := by rfl
  simp [procBlocks, mkBlock, filterKey, filterKey_append, h1, h3,
    filterKey_map_two_keys_eq "transform" "transform" h2 d.transforms]

theorem filterKey_procBlocks_output (d : procDesc) :
    filterKey "output" (procBlocks d) =
      [([d.outLabel], d.line, .obj (mkAttrItems d.outAttrs))] := by
  have h1 : eqFold "input" "output" = false := by rfl
  have h2 : eqFold "transform" "output" = false := by rfl
  have h3 : eqFold "output" "output" = true := by rfl
  simp [procBlocks, mkBlock, filterKey, filterKey_append, h1, h3,
    filterKey_map_two_keys_ne "transform" "output" h2 d.transforms]

theorem checkKeysLoop_two_keys_map (valid : List String) (kw : String)
    (hv : valid.contains kw = true)
    (ts : List (String × Nat × List (String × Nat × HLit)))
    (tail : List HItem) (htail : checkKeysLoop valid tail = .ok []) :
    checkKeysLoop valid
      ((ts.map fun t => ([kw, t.1], t.2.1, .obj (mkAttrItems t.2.2))) ++ tail)
      = .ok [] := by
  induction ts with
  | nil => simpa using htail
  | cons t rest ih =>
    simp [checkKeysLoop, hv, ih, show kw ∈ valid from by simpa using hv]

theorem checkKeysLoop_procBlocks (d : procDesc) :
    checkKeysLoop ["input", "output", "transform"] (procBlocks d) = .ok [] := by
  have hin : (["input", "output", "transform"] : List String).contains "input"
      = true := by decide
  have hout : (["input", "output", "transform"] : List String).contains "output"
      = true := by decide
  have htr : (["input", "output", "transform"] : List String).contains "transform"
      = true := by decide
  have houtblk : checkKeysLoop ["input", "output", "transform"]
      [(["output", d.outLabel], d.line, .obj (mkAttrItems d.outAttrs))]
      = .ok [] := by simp [checkKeysLoop, hout]
  have h2 := checkKeysLoop_two_keys_map _ "transform" htr d.transforms _ houtblk
  simp [procBlocks, mkBlock, checkKeysLoop, hin, h2]

theorem checkHCLKeys_procBlocks (d : procDesc) :
    checkHCLKeys (.obj (procBlocks d)) ["input", "output", "transform"] = none := by
  simp [checkHCLKeys, checkHCLKeysList, checkKeysLoop_procBlocks d]

theorem procBlocks_keys_ne (d : procDesc) : ∀ it ∈ procBlocks d, it.1 ≠ [] := by
  intro it hit
  simp only [procBlocks, mkBlock, List.mem_cons, List.mem_append, List.mem_map,
    List.mem_singleton, List.not_mem_nil, or_false] at hit
  rcases hit with h | ⟨t, _, h⟩ | h
  · subst h; simp
  · subst h; simp
  · subst h; simp

theorem parseInputs_mk (lbl : String) (line : Nat)
    (attrs : List (String × Nat × HLit)) :
    parseInputs [([lbl], line, .obj (mkAttrItems attrs))] =
      .ok (some { type := strLower lbl, config := attrsConfig attrs }) := by
  simp [parseInputs, children, decodeObject, decodeEntries_mkAttrItems]

theorem parseOutputs_mk (lbl : String) (line : Nat)
    (attrs : List (String × Nat × HLit)) :
    parseOutputs [([lbl], line, .obj (mkAttrItems attrs))] =
      .ok { type := strLower lbl, config := attrsConfig attrs } := by
  simp [parseOutputs, children, decodeObject, decodeEntries_mkAttrItems]

theorem parseTransforms_mk
    (ts : List (String × Nat × List (String × Nat × HLit))) :
    parseTransforms (ts.map fun t => ([t.1], t.2.1, .obj (mkAttrItems t.2.2))) =
      .ok (ts.map fun t =>
        { type := strLower t.1, config := attrsConfig t.2.2 }) := by
  induction ts with
  | nil => rfl
  | cons t rest ih =>
    simp [parseTransforms, decodeObject, decodeEntries_mkAttrItems, ih]

theorem parseOneProcess_mk (seen : List String) (d : procDesc)
    (h : seen.contains d.name = false) :
    parseOneProcess seen (strippedProcess d) = .ok (d.name, descProcess d) := by
  obtain ⟨m, hm⟩ := decodeEntries_ok_of_keys (procBlocks d) (procBlocks_keys_ne d)
  have h' : d.name ∉ seen := by simpa using h
  cases htr : d.transforms with
  | nil =>
    simp [parseOneProcess, strippedProcess, h, h', checkHCLKeys_procBlocks,
      decodeObject, hm, filterKey_procBlocks_input, filterKey_procBlocks_transform,
      filterKey_procBlocks_output, parseInputs_mk, parseOutputs_mk, mapErr,
      wrapCtx, descProcess, htr]
  | cons t ts =>
    have hpt := parseTransforms_mk (t :: ts)
    simp only [List.map_cons] at hpt
    simp [parseOneProcess, strippedProcess, h, h', checkHCLKeys_procBlocks,
      decodeObject, hm, filterKey_procBlocks_input, filterKey_procBlocks_transform,
      filterKey_procBlocks_output, parseInputs_mk, parseOutputs_mk, hpt, mapErr,
      wrapCtx, descProcess, htr]

theorem parseProcessesLoop_mk (ds : List procDesc) :
    ∀ seen : List String,
    (∀ d ∈ ds, seen.contains d.name = false) →
    (ds.map procDesc.name).Nodup →
    parseProcessesLoop seen (ds.map strippedProcess) = .ok (ds.map descProcess) := by
  induction ds with
  | nil => intro seen _ _; rfl
  | cons d rest ih =>
    intro seen hseen hnd
    have h1 : seen.contains d.name = false := hseen d (List.mem_cons_self _ _)
    have hnd2 : d.name ∉ rest.map procDesc.name ∧ (rest.map procDesc.name).Nodup :=
      List.nodup_cons.mp (by simpa using hnd)
    have hrest : ∀ d2 ∈ rest, (d.name :: seen).contains d2.name = false := by
      intro d2 hd2
      have hne : d2.name ≠ d.name := by
        intro hEq
        exact hnd2.1 (hEq ▸ List.mem_map_of_mem procDesc.name hd2)
      have hs : d2.name ∉ seen := by
        simpa using hseen d2 (List.mem_cons_of_mem _ hd2)
      simp [hne, hs]
    have hloop := ih (d.name :: seen) hrest hnd2.2
    simp [parseProcessesLoop, parseOneProcess_mk seen d h1, hloop]

theorem filterKey_process_map (ds : List procDesc) :
    filterKey "process" (ds.map mkProcessItem) = ds.map strippedProcess := by
  have h : eqFold "process" "process" = true := by rfl
  induction ds with
  | nil => rfl
  | cons d rest ih => simp [mkProcessItem, strippedProcess, filterKey, h, ih]

theorem filterKey_unidata_map (ds : List procDesc) :
    filterKey "unidata" (ds.map mkProcessItem) = [] := by
  have h : eqFold "process" "unidata" = false := by rfl
  induction ds with
  | nil => rfl
  | cons d rest ih => simp [mkProcessItem, filterKey, h, ih]

theorem children_stripped (ds : List procDesc) :
    children (ds.map strippedProcess) = ds.map strippedProcess := by
  induction ds with
  | nil => rfl
  | cons d rest ih => simp [children, strippedProcess, ih]

theorem checkKeysLoop_root (ds : List procDesc) :
    checkKeysLoop ["process", "unidata"] (ds.map mkProcessItem) = .ok [] := by
  have hp : (["process", "unidata"] : List String).contains "process" = true := by
    decide
  induction ds with
  | nil => rfl
  | cons d rest ih => simp [mkProcessItem, checkKeysLoop, hp, ih]

/-! ### Claim C1 -/

/-- C1 counterexample: two sibling processes each carry an unknown key,
yet the decode reports only the first process failure (procB and its
invalid key never appear in the result) and returns no model, so the
decode does not collect every validation failure in a single pass. -/
theorem c1_counterexample :
    Parse [c1item "procA" "bogus" 3, c1item "procB" "other" 7] =
      .error (.parsing "process"
        (.multi [.inProcess "procA" (.invalidKey "bogus" 3)])) := by rfl

/-- C1 (amended): the decode is fail-fast across sibling blocks: the
first failing process determines the entire result of the process loop
and the remaining siblings are never traversed (the result does not
depend on them); only the per-block unknown-key check aggregates its
failures into one multi-error. -/
theorem c1_theorem (seen : List String) (it : HItem) (e : PErr)
    (rest : List HItem) (h : parseOneProcess seen it = .error e) :
    parseProcessesLoop seen (it :: rest) = .error e := by
  simp [parseProcessesLoop, h]

/-- C1 witness: the fail-fast theorem applied at a concrete failing
head item with a concrete sibling. -/
theorem c1_witness :
    parseOneProcess [] c1wItem = .error (.inProcess "w" .cannotCheckKeys) ∧
    parseProcessesLoop [] [c1wItem, c1item "procB" "other" 7] =
      .error (.inProcess "w" .cannotCheckKeys) :=
  ⟨rfl, c1_theorem [] c1wItem _ [c1item "procB" "other" 7] rfl⟩

/-! ### Claim C2 -/

/-- C2 counterexample: procA lacks its output group and procB lacks its
input group, but the decode reports only procA and returns no model, so
a process missing output does prevent a sibling lacking input from
being reported. -/
theorem c2_counterexample :
    Parse [mkProcessNoOut "procA" 1 "csv" [], mkProcessNoIn "procB" 2 "json" []] =
      .error (.parsing "process" (.missingOutput "procA")) := by rfl

/-- C2 (amended): a process missing its required input or output group
yields a structural error naming that process, and the decode aborts
there: the result is that single error regardless of the sibling
processes that follow, which are never decoded, and no model is
returned. -/
theorem c2_theorem (n : String) (line : Nat) (lbl : String)
    (attrs : List (String × Nat × HLit)) (n2 : String) (line2 : Nat)
    (lbl2 : String) (attrs2 : List (String × Nat × HLit))
    (ds : List procDesc) :
    Parse (mkProcessNoOut n line lbl attrs :: ds.map mkProcessItem) =
      .error (.parsing "process" (.missingOutput n)) ∧
    Parse (mkProcessNoIn n2 line2 lbl2 attrs2 :: ds.map mkProcessItem) =
      .error (.parsing "process" (.missingInput n2)) := by
  have hroot := checkKeysLoop_root ds
  have hfp := filterKey_process_map ds
  have hfu := filterKey_unidata_map ds
  have hch := children_stripped ds
  have e1 : eqFold "process" "process" = true := by rfl
  have e2 : eqFold "process" "unidata" = false := by rfl
  have e3 : eqFold "input" "input" = true := by rfl
  have e4 : eqFold "input" "transform" = false := by rfl
  have e5 : eqFold "input" "output" = false := by rfl
  have e6 : eqFold "output" "output" = true := by rfl
  have e7 : eqFold "output" "input" = false := by rfl
  have e8 : eqFold "output" "transform" = false := by rfl
  have hp : (["process", "unidata"] : List String).contains "process" = true := by
    decide
  have hin : (["input", "output", "transform"] : List String).contains "input"
      = true := by decide
  have hout : (["input", "output", "transform"] : List String).contains "output"
      = true := by decide
  constructor
  · simp [Parse, checkHCLKeysList, checkKeysLoop, mkProcessNoOut, mkBlock, hp,
      hroot, filterKey, e1, e2, e3, e4, e5, hfp, hfu, parseProcesses, children,
      hch, parseProcessesLoop, parseOneProcess, checkHCLKeys, decodeObject,
      decodeEntries, parseInputs_mk, mapErr, wrapCtx, hin]
  · simp [Parse, checkHCLKeysList, checkKeysLoop, mkProcessNoIn, mkBlock, hp,
      hroot, filterKey, e1, e2, e6, e7, e8, hfp, hfu, parseProcesses, children,
      hch, parseProcessesLoop, parseOneProcess, checkHCLKeys, decodeObject,
      decodeEntries, mapErr, wrapCtx, hout]

/-! ### Claim C3 -/

/-- C3 counterexample: two processes share a name and a third sibling
lacks its output group; the decode emits exactly the one duplicate
error but the third sibling is never processed (its missing output is
not reported), so the decode does not keep processing the remaining
siblings. -/
theorem c3_counterexample :
    Parse [mkProcessItem c3e1, mkProcessItem c3e2, mkProcessNoOut "c" 9 "csv" []]
      = .error (.parsing "process" (.duplicateProcess "dupx")) := by rfl

/-- C3 (amended): on the second occurrence of a process name the decode
returns exactly one defined-more-than-once error identifying that name,
and aborts the scope: the result is that single error regardless of the
remaining siblings, which are not processed. -/
theorem c3_theorem (d d2 : procDesc) (rest : List procDesc)
    (h : d2.name = d.name) :
    Parse ((d :: d2 :: rest).map mkProcessItem) =
      .error (.parsing "process" (.duplicateProcess d.name)) := by
  have hroot := checkKeysLoop_root (d :: d2 :: rest)
  have hfp := filterKey_process_map (d :: d2 :: rest)
  have hfu := filterKey_unidata_map (d :: d2 :: rest)
  have hch := children_stripped (d :: d2 :: rest)
  have hone := parseOneProcess_mk [] d rfl
  have hdup : parseOneProcess [d.name] (strippedProcess d2) =
      .error (.duplicateProcess d.name) := by
    simp [parseOneProcess, strippedProcess, h]
  simp only [List.map_cons] at hroot hfp hfu hch
  simp [Parse, checkHCLKeysList, hroot, hfp, hfu, parseProcesses, hch,
    parseProcessesLoop, hone, hdup, mapErr, wrapCtx]

/-- C3 witness: the amended theorem applied at two concrete processes
with the same name. -/
theorem c3_witness :
    c3d2.name = c3d1.name ∧
    Parse ((c3d1 :: c3d2 :: []).map mkProcessItem) =
      .error (.parsing "process" (.duplicateProcess c3d1.name)) :=
  ⟨rfl, c3_theorem c3d1 c3d2 [] rfl⟩

/-! ### Claim C4 -/

/-- C4 counterexample: a decode that records an error returns only that
error with no model at all, refuting that the partially built model is
always returned alongside the error list. -/
theorem c4_counterexample :
    ParseGo c4root = (none, some (.multi [.invalidKey "bad" 1])) := by rfl

/-- C4 (amended): Parse returns either a model with a nil error or a
nil model with the first recorded error; it never returns a (partial)
model together with a non-empty error. -/
theorem c4_theorem (root : List HItem) :
    ((ParseGo root).1 = none ∧ (ParseGo root).2.isSome) ∨
    ((ParseGo root).1.isSome ∧ (ParseGo root).2 = none) := by
  cases h : Parse root with
  | ok c => right; simp [ParseGo, h]
  | error e => left; simp [ParseGo, h]

/-! ### Claim C5 -/

/-- C5: for every well-shaped configuration of N uniquely named process
blocks, the decoded model has exactly those N processes in declaration
order, each carrying its name, the lower-cased input and output labels
as types, its attributes verbatim, and the transform types in
declaration order, with no error. -/
theorem c5_theorem (ds : List procDesc)
    (hnd : (ds.map procDesc.name).Nodup) :
    Parse (ds.map mkProcessItem) = .ok ⟨ds.map descProcess, none⟩ := by
  have hloop := parseProcessesLoop_mk ds [] (fun d _ => rfl) hnd
  cases ds with
  | nil => rfl
  | cons d rest =>
    have hroot := checkKeysLoop_root (d :: rest)
    have hfp := filterKey_process_map (d :: rest)
    have hfu := filterKey_unidata_map (d :: rest)
    have hch := children_stripped (d :: rest)
    simp only [List.map_cons] at hroot hfp hfu hch hloop ⊢
    simp [Parse, checkHCLKeysList, parseProcesses, hroot, hfp, hfu, hch, hloop,
      mapErr]

/-- C5 witness: the round-trip theorem applied at a concrete two-process
configuration with unique names. -/
theorem c5_witness :
    (([c5d1, c5d2].map procDesc.name).Nodup) ∧
    Parse ([c5d1, c5d2].map mkProcessItem) =
      .ok ⟨[c5d1, c5d2].map descProcess, none⟩ :=
  ⟨by decide, c5_theorem [c5d1, c5d2] (by decide)⟩

/-! ### Claim C6 -/

/-- Loop of the key validator computes exactly the offending keys with
their lines, in order, when every item has at least one key. -/
theorem checkKeysLoop_offending (valid : List String) (items : List HItem) :
    (∀ it ∈ items, it.1 ≠ []) →
    checkKeysLoop valid items =
      .ok ((offendingKeys valid items).map fun p => PErr.invalidKey p.1 p.2) := by
  induction items with
  | nil => intro _; rfl
  | cons it rest ih =>
    intro h
    obtain ⟨ks, line, v⟩ := it
    cases ks with
    | nil => exact absurd rfl (h ([], line, v) (List.mem_cons_self _ _))
    | cons k ks2 =>
      have hr := ih fun x hx => h x (List.mem_cons_of_mem _ hx)
      cases hvk : valid.contains k with
      | true =>
        simp [checkKeysLoop, offendingKeys, hr, hvk,
          show k ∈ valid from by simpa using hvk]
      | false =>
        simp [checkKeysLoop, offendingKeys, hr, hvk,
          show k ∉ valid from by simpa using hvk]

/-- C6: on any block whose items all carry a key, the key validator
returns exactly one invalid-key error for every key present that is not
in the permitted set, each naming the key and its source line, in block
order, and returns the whole collection in one pass (it reports every
offending key, not just the first). -/
theorem c6_theorem (items : List HItem) (valid : List String)
    (h : ∀ it ∈ items, it.1 ≠ []) :
    checkHCLKeys (.obj items) valid =
      if offendingKeys valid items = [] then none
      else some (.multi ((offendingKeys valid items).map fun p =>
        PErr.invalidKey p.1 p.2)) := by
  have hloop := checkKeysLoop_offending valid items h
  cases hoff : offendingKeys valid items with
  | nil => simp [checkHCLKeys, checkHCLKeysList, hloop, hoff]
  | cons p ps => simp [checkHCLKeys, checkHCLKeysList, hloop, hoff]

/-- C6 witness: the validator theorem applied at a concrete block with
one permitted and two unknown keys; both unknown keys are reported. -/
theorem c6_witness :
    (∀ it ∈ c6items, it.1 ≠ []) ∧
    checkHCLKeys (.obj c6items) ["good"] =
      some (.multi [.invalidKey "bad1" 2, .invalidKey "bad2" 3]) :=
  ⟨by decide, (c6_theorem c6items ["good"] (by decide)).trans (by rfl)⟩

/-! ### Claim C7 -/

/-- C7: the claim is right and the code is wrong.  On a field block
with a non-boolean is-underscore-multi value the earlier revision of
parseFields does not produce a type-coercion error naming the field:
the weak decoder skips the key (it does not case-fold-match the Go
struct field IsMulti), and the explicit val-dot-bool assertion then
panics.  The absent case does decode to false as claimed. -/
theorem c7_theorem :
    V1.parseFields [c7failing] =
      .error (.goPanic "interface conversion: interface is not bool") ∧
    V1.parseFields [c7absent] =
      .ok [{ name := "TITLE", type := "string", isMulti := false }] :=
  ⟨rfl, rfl⟩

/-! ### Claim C8 -/

/-- C8: for every input, output or transform block, the decoded type is
the lower-cased block label and the config mapping is exactly the
block attributes verbatim; the result holds for every attribute list,
so no key-set validation is applied inside these blocks. -/
theorem c8_theorem (lbl : String) (line : Nat)
    (attrs : List (String × Nat × HLit)) :
    parseInputs [([lbl], line, .obj (mkAttrItems attrs))] =
      .ok (some { type := strLower lbl, config := attrsConfig attrs }) ∧
    parseOutputs [([lbl], line, .obj (mkAttrItems attrs))] =
      .ok { type := strLower lbl, config := attrsConfig attrs } ∧
    parseTransforms [([lbl], line, .obj (mkAttrItems attrs))] =
      .ok [{ type := strLower lbl, config := attrsConfig attrs }] := by
  refine ⟨parseInputs_mk lbl line attrs, parseOutputs_mk lbl line attrs, ?_⟩
  have h := parseTransforms_mk [(lbl, line, attrs)]
  simpa using h

/-! ### Claim C9 -/

/-- C9: more than one unidata block is an error: parseUnidata rejects
every list of two or more items, and Parse reports the duplicated kind
for a root holding two unidata blocks. -/
theorem c9_theorem :
    (∀ items : List HItem, 1 < items.length →
      parseUnidata items = .error .onlyOneUnidata) ∧
    (∀ (l1 l2 : Nat) (v1 v2 : HNode),
      Parse [(["unidata"], l1, v1), (["unidata"], l2, v2)] =
        .error (.parsing "unidata" .onlyOneUnidata)) := by
  constructor
  · intro items h
    unfold parseUnidata
    rw [if_pos h]
  · intro l1 l2 v1 v2
    have e1 : eqFold "unidata" "unidata" = true := by rfl
    have e2 : eqFold "unidata" "process" = false := by rfl
    have hu : (["process", "unidata"] : List String).contains "unidata" = true := by
      decide
    simp [Parse, checkHCLKeysList, checkKeysLoop, hu, filterKey, e1, e2,
      parseUnidata, mapErr, wrapCtx]

/-- C9 witness: the theorem applied at a concrete pair of unidata
items. -/
theorem c9_witness :
    1 < c9items.length ∧ parseUnidata c9items = .error .onlyOneUnidata :=
  ⟨by decide, c9_theorem.1 c9items (by decide)⟩

/-! ### Claim C10 -/

/-- C10: an input group with surplus children is not an error: only the
first child is decoded, whatever follows it, while an output group
whose labeled-children count differs from one is rejected. -/
theorem c10_theorem :
    (∀ (lbl : String) (line : Nat) (attrs : List (String × Nat × HLit))
      (rest : List HItem),
      parseInputs (([lbl], line, .obj (mkAttrItems attrs)) :: rest) =
        .ok (some { type := strLower lbl, config := attrsConfig attrs })) ∧
    (∀ items : List HItem, (children items).length ≠ 1 →
      parseOutputs items = .error .onlyOneOutput) := by
  constructor
  · intro lbl line attrs rest
    simp [parseInputs, children, decodeObject, decodeEntries_mkAttrItems]
  · intro items h
    cases hc : children items with
    | nil => simp [parseOutputs, hc]
    | cons x rest =>
      cases rest with
      | nil => exact absurd (by rw [hc] ; rfl : (children items).length = 1) h
      | cons y rest2 => simp [parseOutputs, hc]

/-- C10 witness: the theorem applied at a concrete output group with
two labeled children. -/
theorem c10_witness :
    (children c10items).length ≠ 1 ∧
    parseOutputs c10items = .error .onlyOneOutput :=
  ⟨by decide, c10_theorem.2 c10items (by decide)⟩

end EtlCmd
